import Mathlib

/-!
# Verification of the lab-orders-lite domain core

A shallow embedding, in Lean 4, of the domain-service layer of the
lab-orders-lite repository: the patient duplicate matcher
(`src/core/patients/patient.repository.ts`), the order aggregator
(`order.service.ts` / `order.repository.ts`), the test repository filter
composition (`test.repository.ts`), the pagination helper
(`src/lib/api-handler.ts`) and the soft-delete query-rewriting Prisma
extension (`src/lib/prisma.ts`).

Modelling conventions:
* JS strings are Lean `String`; `toLowerCase`/`trim` on the ASCII data the
  system handles are `String.toLower`/`String.trim`.
* JS `Date` values are `Int` milliseconds since the epoch.  The
  `getUTCFullYear/Month/Date` + `Date.UTC(y, m, d, 0, 0, 0, 0)` round trip
  used in `findDuplicate` computes the UTC midnight of the day containing
  the instant, i.e. flooring to a multiple of 86400000 ms; `Date.UTC(y, m,
  d, 23, 59, 59, 999)` is that value plus 86399999.
* `price`/`totalCost` are JS numbers; none of the claims hinge on
  fractional or floating-point behaviour, so they are modelled as `Int`
  (exact arithmetic, kernel-evaluable).
* Database tables are Lean lists of rows ordered by insertion; a Prisma
  `where` argument becomes a Boolean predicate on rows, and the
  `$extends` soft-delete extension is modelled exactly on the operations
  it intercepts (`findMany`, `findFirst`, `findUnique`, `delete`) — in
  particular, it has no handler for `count`.
* Thrown service errors become `Except`-style outcome values returned next
  to the (unchanged) store.
-/

namespace LabOrders

/-! ## JS string primitives

Implemented by structural recursion on `List Char` so that every
definition evaluates inside the kernel. -/

/-- Haystack starts with pattern (on character lists); the empty pattern is
at the start of everything. -/
def startsWithChars : List Char → List Char → Bool
  | _, [] => true
  | [], _ :: _ => false
  | c :: cs, d :: ds => c == d && startsWithChars cs ds

/-- JS `String.prototype.includes` on character lists: some suffix of the
haystack starts with the pattern. -/
def hasSubstringChars : List Char → List Char → Bool
  | [], pat => pat.isEmpty
  | c :: cs, pat => startsWithChars (c :: cs) pat || hasSubstringChars cs pat

/-- JS `toLowerCase` on a character list (the system handles ASCII names). -/
def lowerChars (l : List Char) : List Char :=
  l.map Char.toLower

/-- JS `trim`: drop whitespace from both ends. -/
def trimChars (l : List Char) : List Char :=
  ((l.dropWhile Char.isWhitespace).reverse.dropWhile Char.isWhitespace).reverse

/-- JS `split(/\s+/)` as iterated single-character splitting: cut at every
whitespace character, keeping (possibly empty) chunks.  Combined with the
`filter (length > 0)` done by every caller this is exactly the regex
split's list of maximal non-whitespace runs. -/
def splitWsChars : List Char → List Char → List (List Char)
  | [], acc => [acc.reverse]
  | c :: cs, acc =>
    if c.isWhitespace then acc.reverse :: splitWsChars cs []
    else splitWsChars cs (c :: acc)

/-- Case-insensitive substring test: Prisma
`{ contains: needle, mode: "insensitive" }` lowercases both sides. -/
def strContainsCI (hay needle : String) : Bool :=
  hasSubstringChars (lowerChars hay.data) (lowerChars needle.data)

/-! ## Patient duplicate matcher (`patient.repository.ts`) -/

/-- Models `PatientRepository.normalizeNameToWords`:
`name.trim().toLowerCase().split(/\s+/).filter(w => w.length > 0)`. -/
def normalizeNameToWords (name : String) : List String :=
  ((splitWsChars (lowerChars (trimChars name.data)) []).map
    (fun cs => String.mk cs)).filter (fun w => w.length > 0)

/-- Models `PatientRepository.namesMatchWordBased`: false when either normalized
word list is empty; otherwise every word of the shorter word list (ties go
to `name1`) must occur, by exact equality, in the longer word list. -/
def namesMatchWordBased (name1 name2 : String) : Bool :=
  let words1 := normalizeNameToWords name1
  let words2 := normalizeNameToWords name2
  if words1.length == 0 || words2.length == 0 then
    false
  else
    let shorter := if words1.length ≤ words2.length then words1 else words2
    let longer := if words1.length > words2.length then words1 else words2
    shorter.all (fun word => longer.contains word)

/-- C1: for names whose normalized word lists are both non-empty,
`namesMatchWordBased` returns true iff every word of the list with fewer
words occurs, by exact whole-word equality, in the longer list; if either
normalized word list is empty the comparison returns false. -/
theorem C1_namesMatchWordBased_correct (n1 n2 : String) :
    ((normalizeNameToWords n1 = [] ∨ normalizeNameToWords n2 = []) →
      namesMatchWordBased n1 n2 = false) ∧
    (normalizeNameToWords n1 ≠ [] → normalizeNameToWords n2 ≠ [] →
      (namesMatchWordBased n1 n2 = true ↔
        if (normalizeNameToWords n1).length ≤ (normalizeNameToWords n2).length then
          ∀ w ∈ normalizeNameToWords n1, w ∈ normalizeNameToWords n2
        else
          ∀ w ∈ normalizeNameToWords n2, w ∈ normalizeNameToWords n1)) := by
  constructor
  · rintro (h | h) <;> simp [namesMatchWordBased, h]
  · intro h1 h2
    have l1 : (normalizeNameToWords n1).length ≠ 0 := by
      simpa [List.length_eq_zero] using h1
    have l2 : (normalizeNameToWords n2).length ≠ 0 := by
      simpa [List.length_eq_zero] using h2
    by_cases hle : (normalizeNameToWords n1).length ≤ (normalizeNameToWords n2).length
    · have hgt : ¬ (normalizeNameToWords n1).length > (normalizeNameToWords n2).length :=
        not_lt.mpr hle
      simp [namesMatchWordBased, l1, l2, hle, hgt, List.all_eq_true]
    · have hgt : (normalizeNameToWords n1).length > (normalizeNameToWords n2).length :=
        not_le.mp hle
      simp [namesMatchWordBased, l1, l2, hle, hgt, List.all_eq_true]

/-- Witness for C1 at the spec's own example: "Doe S Joe" vs "Doe Joe". -/
theorem C1_witness : namesMatchWordBased "Doe S Joe" "Doe Joe" = true :=
  ((C1_namesMatchWordBased_correct "Doe S Joe" "Doe Joe").2
    (by decide) (by decide)).mpr (by decide)

/-! ## Patient entity and duplicate check -/

inductive Gender where
  | MALE
  | FEMALE
deriving Repr, DecidableEq

/-- A row of the `Patient` table; `Date` columns are ms since the epoch. -/
structure PatientRow where
  id : String
  name : String
  dob : Int
  phone : Option String := none
  gender : Gender := .MALE
  address : Option String := none
  deletedAt : Option Int := none
  createdAt : Int := 0
  updatedAt : Int := 0
deriving Repr, DecidableEq

/-- A zod-validated create-patient DTO (`dob` already parsed to a date). -/
structure CreatePatientDTO where
  name : String
  dob : Int
  phone : Option String := none
  gender : Gender := .MALE
  address : Option String := none
deriving Repr

/-- Models `Date.UTC(getUTCFullYear, getUTCMonth, getUTCDate, 0, 0, 0, 0)`: the
UTC midnight of the day containing `t`, i.e. `t` floored to a multiple of
86400000 ms. -/
def utcDayStart (t : Int) : Int :=
  (Int.fdiv t 86400000) * 86400000

/-- Models `Date.UTC(…, 23, 59, 59, 999)`: the last millisecond of that UTC day. -/
def utcDayEnd (t : Int) : Int :=
  utcDayStart t + 86399999

/-- Models `prisma.patient.findMany` under the soft-delete extension: the
handler spreads `deletedAt: null` over the caller's `where`
(`args.where = { ...args.where, deletedAt: null }`). -/
def patientFindMany (tbl : List PatientRow) (wher : PatientRow → Bool) :
    List PatientRow :=
  tbl.filter (fun r => wher r && r.deletedAt == none)

/-- The `where` argument of the narrowing prefilter query issued by
`PatientRepository.findDuplicate`, exactly as composed by the source:

`{ dob: { gte: dobStart, lte: dobEnd }, OR: [...nameFilters, { deletedAt: null }] }`

where each name filter is a case-insensitive contains on one normalized
word of the candidate name, and the trailing `{ deletedAt: null }` member
of the `OR` list is in the source
(`OR: [...nameFilters, { deletedAt: null }]`). -/
def findDuplicateWhere (dobStart dobEnd : Int) (words : List String)
    (p : PatientRow) : Bool :=
  decide (dobStart ≤ p.dob) && decide (p.dob ≤ dobEnd) &&
    (words.any (fun w => strContainsCI p.name w) || p.deletedAt == none)

/-- Models `PatientRepository.findDuplicate`: normalize the dob to a UTC day
range and the name to words; if the word list is empty return no
duplicate; otherwise run the prefilter query and return the first
candidate whose name word-subset-matches the (trimmed) new name. -/
def findDuplicate (patients : List PatientRow) (name : String) (dob : Int) :
    Option PatientRow :=
  let dobStart := utcDayStart dob
  let dobEnd := utcDayEnd dob
  let newName := String.mk (trimChars name.data)
  let newNameWords := normalizeNameToWords newName
  if newNameWords.length == 0 then
    none
  else
    let candidates :=
      patientFindMany patients (findDuplicateWhere dobStart dobEnd newNameWords)
    candidates.find? (fun p => namesMatchWordBased newName p.name)

/-- The row inserted by `PatientRepository.create`: name/phone/address
trimmed, deletion marker unset, timestamps set by the store. -/
def newPatientRow (dto : CreatePatientDTO) (newId : String) (now : Int) :
    PatientRow where
  id := newId
  name := String.mk (trimChars dto.name.data)
  dob := dto.dob
  phone := dto.phone.map (fun s => String.mk (trimChars s.data))
  gender := dto.gender
  address := dto.address.map (fun s => String.mk (trimChars s.data))
  deletedAt := none
  createdAt := now
  updatedAt := now

inductive PatientCreateOutcome where
  | created (p : PatientRow)
  | conflict (msg : String)
deriving Repr, DecidableEq

/-- Models `PatientService.createPatient` on an already-validated DTO: check for
a duplicate; on a hit throw `ConflictError` naming the existing id and
leave the table unchanged, otherwise insert. -/
def createPatient (patients : List PatientRow) (dto : CreatePatientDTO)
    (newId : String) (now : Int) : List PatientRow × PatientCreateOutcome :=
  match findDuplicate patients dto.name dto.dob with
  | some existing =>
      (patients,
        .conflict
          ("Patient already exists with the same name and date of birth. Existing patient ID: "
            ++ existing.id))
  | none =>
      let p := newPatientRow dto newId now
      (patients ++ [p], .created p)

/-! ## Helper lemmas on the string primitives -/

theorem dropWhile_idem {α : Type} (p : α → Bool) (l : List α) :
    (l.dropWhile p).dropWhile p = l.dropWhile p := by
  induction l with
  | nil => rfl
  | cons c cs ih =>
    by_cases h : p c <;> simp [List.dropWhile_cons, h, ih]

theorem dropWhile_head_false {α : Type} (p : α → Bool) (l : List α) :
    l.dropWhile p = [] ∨
      ∃ c t, l.dropWhile p = c :: t ∧ p c = false := by
  induction l with
  | nil => exact .inl rfl
  | cons c cs ih =>
    by_cases h : p c
    · simpa [List.dropWhile_cons, h] using ih
    · exact .inr ⟨c, cs, by simp [List.dropWhile_cons, h], by simp [h]⟩

theorem dropWhile_suffix_decomp {α : Type} (p : α → Bool) (l : List α) :
    ∃ u, l = u ++ l.dropWhile p := by
  induction l with
  | nil => exact ⟨[], rfl⟩
  | cons c cs ih =>
    by_cases h : p c
    · obtain ⟨u, hu⟩ := ih
      exact ⟨c :: u, by simp [List.dropWhile_cons, h]; exact hu⟩
    · exact ⟨[], by simp [List.dropWhile_cons, h]⟩

/-- JS `trim` is idempotent. -/
theorem trimChars_idem (l : List Char) :
    trimChars (trimChars l) = trimChars l := by
  unfold trimChars
  set ws := fun c : Char => c.isWhitespace with hws
  set a := l.dropWhile ws with ha
  set y := a.reverse.dropWhile ws with hy
  have hyrev : y.reverse.dropWhile ws = y.reverse := by
    obtain ⟨u, hu⟩ := dropWhile_suffix_decomp ws a.reverse
    rcases dropWhile_head_false ws l with h0 | ⟨c, t, hct, hc⟩
    · have : a = [] := h0
      have hy0 : y = [] := by
        simp [hy, this]
      simp [hy0]
    · have hac : a = c :: t := hct
      cases hyr : y.reverse with
      | nil => simp
      | cons d r =>
        have hu' : a.reverse = u ++ y := by rw [hy]; exact hu
        have harev : a = y.reverse ++ u.reverse := by
          simpa [List.reverse_append] using congrArg List.reverse hu'
        have hd : c = d := by
          rw [hac, hyr] at harev
          simpa using congrArg (fun m => List.head? m) harev
        have hwd : ws d = false := by rw [← hd]; exact hc
        simp [List.dropWhile_cons, hwd]
  have hyy : y.reverse.reverse.dropWhile ws = y := by
    simp [hy, dropWhile_idem]
  rw [hyrev, hyy]

theorem data_mk (l : List Char) : (String.mk l).data = l := rfl

/-- Normalization already trims, so pre-trimming the name is harmless. -/
theorem normalizeNameToWords_mk_trim (s : String) :
    normalizeNameToWords (String.mk (trimChars s.data)) = normalizeNameToWords s := by
  simp [normalizeNameToWords, data_mk, trimChars_idem]

/-- The matcher is insensitive to pre-trimming its first argument. -/
theorem namesMatchWordBased_trim_left (s t : String) :
    namesMatchWordBased (String.mk (trimChars s.data)) t =
      namesMatchWordBased s t := by
  simp [namesMatchWordBased, normalizeNameToWords_mk_trim]

theorem startsWithChars_refl (l : List Char) : startsWithChars l l = true := by
  induction l with
  | nil => rfl
  | cons c cs ih => simp [startsWithChars, ih]

/-- A string has its own suffix as a substring. -/
theorem hasSubstringChars_suffix (a b : List Char) :
    hasSubstringChars (a ++ b) b = true := by
  induction a with
  | nil =>
    cases b with
    | nil => rfl
    | cons c cs => simp [hasSubstringChars, startsWithChars_refl]
  | cons c cs ih => simp [hasSubstringChars, ih]

/-! ## Characterizing `findDuplicate` -/

theorem findDuplicate_eq_some (patients : List PatientRow) (name : String)
    (dob : Int) (z : PatientRow)
    (h : findDuplicate patients name dob = some z) :
    z ∈ patients ∧ z.deletedAt = none ∧
      utcDayStart dob ≤ z.dob ∧ z.dob ≤ utcDayEnd dob ∧
      namesMatchWordBased name z.name = true := by
  by_cases h0 :
      (normalizeNameToWords (String.mk (trimChars name.data))).length == 0
  · simp [findDuplicate, h0] at h
  · simp only [findDuplicate, h0, if_neg, Bool.false_eq_true,
      not_false_eq_true, if_false] at h
    have hmem := List.mem_of_find?_eq_some h
    have hpred := List.find?_some h
    rcases List.mem_filter.mp hmem with ⟨hz, hq⟩
    simp only [patientFindMany, findDuplicateWhere, Bool.and_eq_true,
      Bool.or_eq_true, decide_eq_true_eq, beq_iff_eq] at hq
    rw [namesMatchWordBased_trim_left] at hpred
    exact ⟨hz, hq.2, hq.1.1.1, hq.1.1.2, hpred⟩

theorem findDuplicate_isSome_iff (patients : List PatientRow) (name : String)
    (dob : Int) :
    (findDuplicate patients name dob).isSome = true ↔
      ∃ q ∈ patients, q.deletedAt = none ∧
        utcDayStart dob ≤ q.dob ∧ q.dob ≤ utcDayEnd dob ∧
        namesMatchWordBased name q.name = true := by
  constructor
  · intro h
    rcases Option.isSome_iff_exists.mp h with ⟨z, hz⟩
    obtain ⟨h1, h2, h3, h4, h5⟩ := findDuplicate_eq_some patients name dob z hz
    exact ⟨z, h1, h2, h3, h4, h5⟩
  · rintro ⟨q, hq, hdel, hlo, hhi, hmatch⟩
    have h0 : ¬ (normalizeNameToWords (String.mk (trimChars name.data))).length == 0 := by
      intro hc
      have : normalizeNameToWords name = [] := by
        rw [← normalizeNameToWords_mk_trim name]
        exact List.length_eq_zero.mp (beq_iff_eq.mp hc)
      simp [namesMatchWordBased, this] at hmatch
    simp only [findDuplicate, h0, Bool.false_eq_true, not_false_eq_true,
      if_false, if_neg]
    rw [Option.isSome_iff_exists]
    have hqf : q ∈ patientFindMany patients
        (findDuplicateWhere (utcDayStart dob) (utcDayEnd dob)
          (normalizeNameToWords (String.mk (trimChars name.data)))) := by
      refine List.mem_filter.mpr ⟨hq, ?_⟩
      simp [findDuplicateWhere, hdel, hlo, hhi]
    have : (List.find? (fun p => namesMatchWordBased (String.mk (trimChars name.data)) p.name)
        (patientFindMany patients (findDuplicateWhere (utcDayStart dob) (utcDayEnd dob)
          (normalizeNameToWords (String.mk (trimChars name.data)))))).isSome := by
      rw [List.find?_isSome]
      refine ⟨q, hqf, ?_⟩
      rw [namesMatchWordBased_trim_left]
      exact hmatch
    exact Option.isSome_iff_exists.mp this

/-- C2: `createPatient` on a validated DTO raises Conflict (whose message
contains the existing patient's id) and inserts nothing exactly when some
non-deleted patient has a dob inside the candidate's UTC day range and a
word-subset-matching name; otherwise it appends the new row and returns
it. -/
theorem C2_createPatient_correct (patients : List PatientRow)
    (dto : CreatePatientDTO) (newId : String) (now : Int) :
    ((∃ q ∈ patients, q.deletedAt = none ∧
        utcDayStart dto.dob ≤ q.dob ∧ q.dob ≤ utcDayEnd dto.dob ∧
        namesMatchWordBased dto.name q.name = true) →
      (createPatient patients dto newId now).1 = patients ∧
      ∃ msg, (createPatient patients dto newId now).2 = .conflict msg ∧
        ∃ q ∈ patients, q.deletedAt = none ∧
          utcDayStart dto.dob ≤ q.dob ∧ q.dob ≤ utcDayEnd dto.dob ∧
          namesMatchWordBased dto.name q.name = true ∧
          hasSubstringChars msg.data q.id.data = true) ∧
    ((¬ ∃ q ∈ patients, q.deletedAt = none ∧
        utcDayStart dto.dob ≤ q.dob ∧ q.dob ≤ utcDayEnd dto.dob ∧
        namesMatchWordBased dto.name q.name = true) →
      createPatient patients dto newId now =
        (patients ++ [newPatientRow dto newId now],
          .created (newPatientRow dto newId now))) := by
  constructor
  · intro hex
    have hsome : (findDuplicate patients dto.name dto.dob).isSome = true :=
      (findDuplicate_isSome_iff patients dto.name dto.dob).mpr hex
    rcases Option.isSome_iff_exists.mp hsome with ⟨z, hz⟩
    obtain ⟨h1, h2, h3, h4, h5⟩ :=
      findDuplicate_eq_some patients dto.name dto.dob z hz
    refine ⟨by simp [createPatient, hz], ?_⟩
    refine ⟨"Patient already exists with the same name and date of birth. Existing patient ID: "
        ++ z.id,
      by simp [createPatient, hz], z, h1, h2, h3, h4, h5, ?_⟩
    have : ("Patient already exists with the same name and date of birth. Existing patient ID: "
        ++ z.id).data =
        ("Patient already exists with the same name and date of birth. Existing patient ID: ").data
          ++ z.id.data := rfl
    rw [this]
    exact hasSubstringChars_suffix _ _
  · intro hnex
    have hnone : findDuplicate patients dto.name dto.dob = none := by
      apply Option.not_isSome_iff_eq_none.mp
      intro hc
      exact hnex ((findDuplicate_isSome_iff patients dto.name dto.dob).mp hc)
    simp [createPatient, hnone]

/-- Witness for C2: creating a first patient in an empty store succeeds. -/
theorem C2_witness :
    createPatient [] ⟨"John Doe", 0, none, .MALE, none⟩ "id-1" 1000 =
      ([newPatientRow ⟨"John Doe", 0, none, .MALE, none⟩ "id-1" 1000],
        .created (newPatientRow ⟨"John Doe", 0, none, .MALE, none⟩ "id-1" 1000)) :=
  (C2_createPatient_correct [] ⟨"John Doe", 0, none, .MALE, none⟩ "id-1" 1000).2
    (by decide)

/-! ## C3: the narrowing prefilter -/

/-- The failing input for C3: a live patient on the candidate's UTC day
whose name shares no word (not even as a substring) with the candidate
name "John Doe". -/
def c3OtherPatient : PatientRow :=
  { id := "p1", name := "Xyz Qqq", dob := 5000 }

/-- C3 demonstration: the prefilter query of `findDuplicate` (where
argument `findDuplicateWhere`, issued through `patientFindMany`) returns
`c3OtherPatient` although its name contains none of the candidate's
normalized words, because the `{ deletedAt: null }` member of the `OR`
list is satisfied by every non-deleted row, so the name filters never
narrow anything.  This contradicts the code's own comment on that query
("Name must contain at least one word from the new name"). -/
theorem C3_prefilter_returns_unrelated_name :
    ((normalizeNameToWords "John Doe").all
        (fun w => !(strContainsCI c3OtherPatient.name w)) = true) ∧
    patientFindMany [c3OtherPatient]
        (findDuplicateWhere (utcDayStart 0) (utcDayEnd 0)
          (normalizeNameToWords "John Doe")) = [c3OtherPatient] := by
  decide

/-! ## Test entity and repository (`test.repository.ts`, `test.service.ts`) -/

/-- A row of the `Test` table.  `price` is a positive number; the claims
are arithmetic-generic, so it is modelled in `Int`. -/
structure TestRow where
  id : String
  code : String
  name : String
  price : Int
  turnaroundDays : Nat
  isAvailable : Bool := true
  deletedAt : Option Int := none
  createdAt : Int := 0
  updatedAt : Int := 0
deriving Repr, DecidableEq

/-- Models `prisma.test.findMany` under the soft-delete extension (same handler
as for patients: `args.where = { ...args.where, deletedAt: null }`). -/
def testFindMany (tbl : List TestRow) (wher : TestRow → Bool) :
    List TestRow :=
  tbl.filter (fun r => wher r && r.deletedAt == none)

/-- Models `TestRepository.findByIds`: `findMany({ where: { id: { in: ids } } })`. -/
def findByIds (tbl : List TestRow) (ids : List String) : List TestRow :=
  testFindMany tbl (fun t => ids.contains t.id)

/-- Models `TestService.getTestsByIds`: rejects an empty (or non-array) id list,
otherwise delegates to the repository. -/
def getTestsByIds (tbl : List TestRow) (ids : List String) :
    Except String (List TestRow) :=
  if ids.isEmpty then
    .error "Invalid test IDs"
  else
    .ok (findByIds tbl ids)

/-! ## Order aggregation (`order.service.ts`, `order.repository.ts`) -/

inductive OrderStatus where
  | PENDING
  | PROCESSING
  | COMPLETED
  | CANCELLED
deriving Repr, DecidableEq

/-- A row of the `Order` table. -/
structure OrderRow where
  id : String
  patientId : String
  totalCost : Int
  readyDate : Int
  status : OrderStatus := .PENDING
  deletedAt : Option Int := none
  createdAt : Int := 0
  updatedAt : Int := 0
deriving Repr, DecidableEq

/-- A row of the `OrderTest` join table (its surrogate id plays no role in
any claim and is elided). -/
structure OrderTestRow where
  orderId : String
  testId : String
deriving Repr, DecidableEq

/-- The create-order DTO after zod validation (`testIds` non-empty). -/
structure CreateOrderDTO where
  patientId : String
  testIds : List String
  status : Option OrderStatus := none
deriving Repr

/-- Models `prisma.patient.findUnique` under the soft-delete extension: run the
raw lookup, then return null when the row carries a deletion marker. -/
def patientFindUnique (tbl : List PatientRow) (id : String) :
    Option PatientRow :=
  match tbl.find? (fun r => r.id == id) with
  | some r => if r.deletedAt.isSome then none else some r
  | none => none

/-- Models `OrderService.calculateTotalCost`: fetch the referenced tests, fail if
any id did not resolve, fail naming the unavailable tests if any, else sum
the prices (`tests.reduce((total, test) => total + test.price, 0)`). -/
def calculateTotalCost (tbl : List TestRow) (testIds : List String) :
    Except String Int :=
  match getTestsByIds tbl testIds with
  | .error m => .error m
  | .ok tests =>
    if tests.length ≠ testIds.length then
      .error "One or more tests not found"
    else
      let unavailableTests := tests.filter (fun t => !t.isAvailable)
      if unavailableTests.length > 0 then
        .error ("The following tests are not available: "
          ++ String.intercalate ", " (unavailableTests.map (fun t => t.name)))
      else
        .ok (tests.foldl (fun total t => total + t.price) 0)

/-- Models `Math.max(...tests.map(t => t.turnaroundDays))` over the (non-empty)
fetched list of tests. -/
def maxTurnaround (tests : List TestRow) : Nat :=
  tests.foldl (fun m t => max m t.turnaroundDays) 0

/-- Models `OrderService.calculateReadyDate`: re-fetch the tests, re-check that
all ids resolved, then advance "now" by the maximal turnaround in days
(`readyDate.setDate(readyDate.getDate() + maxTurnaroundDays)`, i.e. plus
86400000 ms per day). -/
def calculateReadyDate (tbl : List TestRow) (testIds : List String)
    (now : Int) : Except String Int :=
  match getTestsByIds tbl testIds with
  | .error m => .error m
  | .ok tests =>
    if tests.length ≠ testIds.length then
      .error "One or more tests not found"
    else
      .ok (now + 86400000 * (maxTurnaround tests : Int))

/-- The whole persistent store the order service touches. -/
structure LabDB where
  patients : List PatientRow
  tests : List TestRow
  orders : List OrderRow
  orderTests : List OrderTestRow
deriving Repr, DecidableEq

inductive OrderOutcome where
  | ok (o : OrderRow)
  | err (msg : String)
deriving Repr, DecidableEq

/-- The order row inserted by `OrderRepository.create`: status defaults
to PENDING (`data.status || "PENDING"`), timestamps set by the store. -/
def newOrderRow (dto : CreateOrderDTO) (newId : String) (now : Int)
    (totalCost : Int) (readyDate : Int) : OrderRow where
  id := newId
  patientId := dto.patientId
  totalCost := totalCost
  readyDate := readyDate
  status := dto.status.getD .PENDING
  deletedAt := none
  createdAt := now
  updatedAt := now

/-- Models `OrderService.createOrder` on a validated DTO: verify the patient
exists (live), compute total cost and ready date (each throwing on
missing/unavailable tests, before any write), then atomically create the
`Order` row together with one `OrderTest` row per requested test id
(`OrderRepository.create`).  Every throw happens before the single write,
so the store is returned unchanged on error. -/
def createOrder (db : LabDB) (dto : CreateOrderDTO) (newId : String)
    (now : Int) : LabDB × OrderOutcome :=
  match patientFindUnique db.patients dto.patientId with
  | none => (db, .err "Patient not found")
  | some _ =>
    match calculateTotalCost db.tests dto.testIds with
    | .error m => (db, .err m)
    | .ok totalCost =>
      match calculateReadyDate db.tests dto.testIds now with
      | .error m => (db, .err m)
      | .ok readyDate =>
        let o := newOrderRow dto newId now totalCost readyDate
        ({ db with
            orders := db.orders ++ [o],
            orderTests := db.orderTests
              ++ dto.testIds.map (fun tid => ⟨newId, tid⟩) },
          .ok o)

/-- The update-order DTO after zod validation (all fields optional, at
least one present — the latter is not needed by any claim). -/
structure UpdateOrderDTO where
  patientId : Option String := none
  testIds : Option (List String) := none
  status : Option OrderStatus := none
deriving Repr

/-- Models `OrderRepository.exists`:
`findUnique({ where: { id }, select: { id: true } })`.  Because only `id`
is selected, the extension's `findUnique` handler
(`if (result?.deletedAt) return null`) sees no `deletedAt` field on the
result and never nulls it out, so this is a raw existence check that
soft-deleted rows also satisfy. -/
def orderExists (tbl : List OrderRow) (id : String) : Bool :=
  (tbl.find? (fun r => r.id == id)).isSome

/-- The field rewrite `prisma.order.update` applies to the matched row:
present DTO fields and the recomputed cost/ready date overwrite, absent
ones are left untouched; `@updatedAt` bumps the timestamp. -/
def applyOrderUpdate (dto : UpdateOrderDTO) (totalCost? : Option Int)
    (readyDate? : Option Int) (now : Int) (r : OrderRow) : OrderRow :=
  { r with
    patientId := dto.patientId.getD r.patientId,
    totalCost := totalCost?.getD r.totalCost,
    readyDate := readyDate?.getD r.readyDate,
    status := dto.status.getD r.status,
    updatedAt := now }

/-- Models `OrderRepository.update`: when `testIds` is present, first physically
delete all `OrderTest` rows of the order (`orderTest.deleteMany` has no
extension handler) and then create the new set wholesale; update the
order row (raw `update`, which returns the row after the update). -/
def orderRepoUpdate (db : LabDB) (id : String) (dto : UpdateOrderDTO)
    (totalCost? : Option Int) (readyDate? : Option Int) (now : Int) :
    LabDB × OrderOutcome :=
  let orderTests' :=
    match dto.testIds with
    | none => db.orderTests
    | some ids =>
        (db.orderTests.filter (fun ot => !(ot.orderId == id)))
          ++ ids.map (fun tid => ⟨id, tid⟩)
  match db.orders.find? (fun r => r.id == id) with
  | none => (db, .err "Record to update not found")
  | some r =>
      ({ db with
          orders := db.orders.map (fun s =>
            if s.id == id then applyOrderUpdate dto totalCost? readyDate? now s
            else s),
          orderTests := orderTests' },
        .ok (applyOrderUpdate dto totalCost? readyDate? now r))

/-- The tail of `OrderService.updateOrder` after its guards: recompute
total cost and ready date (with the update-time "now") exactly when
`testIds` is being updated, then hit the repository. -/
def updateOrderCalc (db : LabDB) (id : String) (dto : UpdateOrderDTO)
    (now : Int) : LabDB × OrderOutcome :=
  match dto.testIds with
  | none => orderRepoUpdate db id dto none none now
  | some ids =>
    match calculateTotalCost db.tests ids with
    | .error m => (db, .err m)
    | .ok tc =>
      match calculateReadyDate db.tests ids now with
      | .error m => (db, .err m)
      | .ok rd => orderRepoUpdate db id dto (some tc) (some rd) now

/-- Models `OrderService.updateOrder`: existence guard, patient guard when the
patient is being changed, then `updateOrderCalc`. -/
def updateOrder (db : LabDB) (id : String) (dto : UpdateOrderDTO)
    (now : Int) : LabDB × OrderOutcome :=
  if !(orderExists db.orders id) then
    (db, .err "Order not found")
  else
    match dto.patientId with
    | some pid =>
      match patientFindUnique db.patients pid with
      | none => (db, .err "Patient not found")
      | some _ => updateOrderCalc db id dto now
    | none => updateOrderCalc db id dto now

/-! ## The soft-delete extension's remaining read/delete paths
(`src/lib/prisma.ts`); the per-model handlers are verbatim copies of one
another, modelled here per entity. -/

/-- Raw `findUnique` (the `prismaRaw` bypass client). -/
def patientFindUniqueRaw (tbl : List PatientRow) (id : String) :
    Option PatientRow :=
  tbl.find? (fun r => r.id == id)

def testFindUniqueRaw (tbl : List TestRow) (id : String) : Option TestRow :=
  tbl.find? (fun r => r.id == id)

def orderFindUniqueRaw (tbl : List OrderRow) (id : String) :
    Option OrderRow :=
  tbl.find? (fun r => r.id == id)

/-- Models `prisma.test.findUnique` under the extension. -/
def testFindUnique (tbl : List TestRow) (id : String) : Option TestRow :=
  match tbl.find? (fun r => r.id == id) with
  | some r => if r.deletedAt.isSome then none else some r
  | none => none

/-- Models `prisma.order.findUnique` under the extension. -/
def orderFindUnique (tbl : List OrderRow) (id : String) : Option OrderRow :=
  match tbl.find? (fun r => r.id == id) with
  | some r => if r.deletedAt.isSome then none else some r
  | none => none

/-- Models `prisma.order.findMany` under the extension. -/
def orderFindMany (tbl : List OrderRow) (wher : OrderRow → Bool) :
    List OrderRow :=
  tbl.filter (fun r => wher r && r.deletedAt == none)

/-- The `count` operation is NOT intercepted by the extension (its `query` block lists
only `findMany`, `findFirst`, `findUnique`, `delete` and `deleteMany`),
and the repositories' `count` methods pass the caller's filter bag through
without a `deletedAt` clause: the raw where is all that applies. -/
def patientCount (tbl : List PatientRow) (wher : PatientRow → Bool) : Nat :=
  (tbl.filter wher).length

def testCount (tbl : List TestRow) (wher : TestRow → Bool) : Nat :=
  (tbl.filter wher).length

def orderCount (tbl : List OrderRow) (wher : OrderRow → Bool) : Nat :=
  (tbl.filter wher).length

/-- The extension's `delete` handler for patients: rewritten into
`prismaClient.patient.update({ where: args.where, data: { deletedAt: new
Date() } })` on the raw client.  The schema's automatic `updatedAt`
tracking bumps the timestamp, and Prisma's `update` returns the row after
the update. -/
def patientDelete (tbl : List PatientRow) (id : String) (now : Int) :
    List PatientRow × Option PatientRow :=
  match tbl.find? (fun r => r.id == id) with
  | none => (tbl, none)
  | some r =>
      (tbl.map (fun s =>
          if s.id == id then { s with deletedAt := some now, updatedAt := now }
          else s),
        some { r with deletedAt := some now, updatedAt := now })

/-- The extension's `delete` handler for tests (verbatim copy). -/
def testDelete (tbl : List TestRow) (id : String) (now : Int) :
    List TestRow × Option TestRow :=
  match tbl.find? (fun r => r.id == id) with
  | none => (tbl, none)
  | some r =>
      (tbl.map (fun s =>
          if s.id == id then { s with deletedAt := some now, updatedAt := now }
          else s),
        some { r with deletedAt := some now, updatedAt := now })

/-- The extension's `delete` handler for orders (verbatim copy). -/
def orderDelete (tbl : List OrderRow) (id : String) (now : Int) :
    List OrderRow × Option OrderRow :=
  match tbl.find? (fun r => r.id == id) with
  | none => (tbl, none)
  | some r =>
      (tbl.map (fun s =>
          if s.id == id then { s with deletedAt := some now, updatedAt := now }
          else s),
        some { r with deletedAt := some now, updatedAt := now })

/-! ## Aggregation lemmas -/

theorem foldl_add_price (ts : List TestRow) (a : Int) :
    ts.foldl (fun total t => total + t.price) a
      = a + (ts.map (fun t => t.price)).sum := by
  induction ts generalizing a with
  | nil => simp
  | cons t ts ih => simp [List.foldl_cons, ih, add_assoc]

theorem findByIds_mem (tbl : List TestRow) (ids : List String) (t : TestRow)
    (h : t ∈ findByIds tbl ids) :
    t ∈ tbl ∧ t.id ∈ ids ∧ t.deletedAt = none := by
  rcases List.mem_filter.mp h with ⟨ht, hp⟩
  simp only [Bool.and_eq_true, List.elem_iff, beq_iff_eq] at hp
  exact ⟨ht, hp.1, hp.2⟩

theorem findByIds_map_id_nodup (tbl : List TestRow) (ids : List String)
    (hwf : (tbl.map (fun t => t.id)).Nodup) :
    ((findByIds tbl ids).map (fun t => t.id)).Nodup :=
  hwf.sublist ((List.filter_sublist tbl).map (fun t => t.id))

/-- With unique test ids and a duplicate-free id list in which every id
resolves to a live test, the fetch returns exactly one test per id. -/
theorem findByIds_length_eq (tbl : List TestRow) (ids : List String)
    (hwf : (tbl.map (fun t => t.id)).Nodup) (hnd : ids.Nodup)
    (hres : ∀ i ∈ ids, ∃ t ∈ tbl, t.id = i ∧ t.deletedAt = none) :
    (findByIds tbl ids).length = ids.length := by
  have hsub1 : ((findByIds tbl ids).map (fun t => t.id)) ⊆ ids := by
    intro x hx
    rcases List.mem_map.mp hx with ⟨t, ht, rfl⟩
    exact (findByIds_mem tbl ids t ht).2.1
  have hsub2 : ids ⊆ ((findByIds tbl ids).map (fun t => t.id)) := by
    intro i hi
    rcases hres i hi with ⟨t, htbl, hid, hdel⟩
    have htf : t ∈ findByIds tbl ids := by
      refine List.mem_filter.mpr ⟨htbl, ?_⟩
      simp [List.elem_iff, hid, hi, hdel]
    exact List.mem_map.mpr ⟨t, htf, hid⟩
  have h1 : ((findByIds tbl ids).map (fun t => t.id)).length ≤ ids.length :=
    (List.subperm_of_subset (findByIds_map_id_nodup tbl ids hwf) hsub1).length_le
  have h2 : ids.length ≤ ((findByIds tbl ids).map (fun t => t.id)).length :=
    (List.subperm_of_subset hnd hsub2).length_le
  have := Nat.le_antisymm h1 h2
  simpa using this

/-- With unique test ids, a duplicated id in the request makes the fetch
strictly smaller than the request. -/
theorem findByIds_length_lt (tbl : List TestRow) (ids : List String)
    (hwf : (tbl.map (fun t => t.id)).Nodup) (hdup : ¬ ids.Nodup) :
    (findByIds tbl ids).length < ids.length := by
  have hsub : ((findByIds tbl ids).map (fun t => t.id)) ⊆ ids.dedup := by
    intro x hx
    rcases List.mem_map.mp hx with ⟨t, ht, rfl⟩
    exact List.mem_dedup.mpr (findByIds_mem tbl ids t ht).2.1
  have h1 : ((findByIds tbl ids).map (fun t => t.id)).length ≤ ids.dedup.length :=
    (List.subperm_of_subset (findByIds_map_id_nodup tbl ids hwf) hsub).length_le
  have h2 : ids.dedup.length < ids.length := by
    rcases Nat.lt_or_ge ids.dedup.length ids.length with h | h
    · exact h
    · exfalso
      have hle : ids.dedup.length ≤ ids.length := ids.dedup_sublist.length_le
      have : ids.dedup = ids :=
        ids.dedup_sublist.eq_of_length (Nat.le_antisymm hle h)
      exact hdup (this ▸ List.nodup_dedup ids)
  calc (findByIds tbl ids).length
      = ((findByIds tbl ids).map (fun t => t.id)).length := by simp
    _ ≤ ids.dedup.length := h1
    _ < ids.length := h2

theorem calculateTotalCost_ok (tbl : List TestRow) (ids : List String)
    (hne : ids ≠ [])
    (hlen : (findByIds tbl ids).length = ids.length)
    (hav : ∀ t ∈ findByIds tbl ids, t.isAvailable = true) :
    calculateTotalCost tbl ids =
      .ok ((findByIds tbl ids).map (fun t => t.price)).sum := by
  have hemp : ids.isEmpty = false := by
    simpa [List.isEmpty_iff] using hne
  have hunav : (findByIds tbl ids).filter (fun t => !t.isAvailable) = [] := by
    rw [List.filter_eq_nil_iff]
    intro t ht
    simp [hav t ht]
  simp [calculateTotalCost, getTestsByIds, hemp, hlen, hunav,
    foldl_add_price]

theorem calculateReadyDate_ok (tbl : List TestRow) (ids : List String)
    (now : Int) (hne : ids ≠ [])
    (hlen : (findByIds tbl ids).length = ids.length) :
    calculateReadyDate tbl ids now =
      .ok (now + 86400000 * (maxTurnaround (findByIds tbl ids) : Int)) := by
  have hemp : ids.isEmpty = false := by
    simpa [List.isEmpty_iff] using hne
  simp [calculateReadyDate, getTestsByIds, hemp, hlen]

theorem calculateTotalCost_len_err (tbl : List TestRow) (ids : List String)
    (hne : ids ≠ [])
    (hlen : (findByIds tbl ids).length ≠ ids.length) :
    calculateTotalCost tbl ids = .error "One or more tests not found" := by
  have hemp : ids.isEmpty = false := by
    simpa [List.isEmpty_iff] using hne
  simp [calculateTotalCost, getTestsByIds, hemp, hlen]

theorem calculateTotalCost_unavailable_err (tbl : List TestRow)
    (ids : List String) (hne : ids ≠ [])
    (hlen : (findByIds tbl ids).length = ids.length)
    (hunav : (findByIds tbl ids).filter (fun t => !t.isAvailable) ≠ []) :
    calculateTotalCost tbl ids =
      .error ("The following tests are not available: "
        ++ String.intercalate ", "
          (((findByIds tbl ids).filter (fun t => !t.isAvailable)).map
            (fun t => t.name))) := by
  have hemp : ids.isEmpty = false := by
    simpa [List.isEmpty_iff] using hne
  have hpos : 0 < ((findByIds tbl ids).filter (fun t => !t.isAvailable)).length :=
    List.length_pos.mpr hunav
  simp [calculateTotalCost, getTestsByIds, hemp, hlen, hpos]

theorem findByIds_available (tbl : List TestRow) (ids : List String)
    (hwf : (tbl.map (fun t => t.id)).Nodup)
    (hres : ∀ i ∈ ids, ∃ t ∈ tbl, t.id = i ∧ t.deletedAt = none ∧
      t.isAvailable = true) :
    ∀ t ∈ findByIds tbl ids, t.isAvailable = true := by
  intro t ht
  obtain ⟨htbl, hid, _⟩ := findByIds_mem tbl ids t ht
  obtain ⟨t', ht', hid', _, hav'⟩ := hres t.id hid
  have : t' = t := List.inj_on_of_nodup_map hwf ht' htbl hid'
  rw [← this]
  exact hav'

/-- C4: when every requested test id resolves (uniquely) to a live,
available test and the referenced patient is live, `createOrder` persists
an order whose `totalCost` is the sum of the referenced tests' prices and
whose `readyDate` is "now" advanced by the maximal turnaround in days;
and `updateOrder` with a new test-id set recomputes both with the
update-time "now". -/
theorem C4_order_aggregation (db : LabDB) (dto : CreateOrderDTO)
    (newId : String) (now : Int) (oid : String) (sts : Option OrderStatus)
    (now2 : Int) (r : OrderRow)
    (hp : (patientFindUnique db.patients dto.patientId).isSome = true)
    (hne : dto.testIds ≠ [])
    (hnd : dto.testIds.Nodup)
    (hwf : (db.tests.map (fun t => t.id)).Nodup)
    (hres : ∀ i ∈ dto.testIds, ∃ t ∈ db.tests, t.id = i ∧
      t.deletedAt = none ∧ t.isAvailable = true)
    (horder : db.orders.find? (fun s => s.id == oid) = some r) :
    (∃ o, createOrder db dto newId now =
        ({ db with
            orders := db.orders ++ [o],
            orderTests := db.orderTests
              ++ dto.testIds.map (fun tid => ⟨newId, tid⟩) }, .ok o) ∧
      o.totalCost = ((findByIds db.tests dto.testIds).map (fun t => t.price)).sum ∧
      o.readyDate = now
        + 86400000 * (maxTurnaround (findByIds db.tests dto.testIds) : Int)) ∧
    (∃ db' o', updateOrder db oid ⟨none, some dto.testIds, sts⟩ now2 =
        (db', .ok o') ∧
      o'.totalCost = ((findByIds db.tests dto.testIds).map (fun t => t.price)).sum ∧
      o'.readyDate = now2
        + 86400000 * (maxTurnaround (findByIds db.tests dto.testIds) : Int) ∧
      o' ∈ db'.orders) := by
  have hres' : ∀ i ∈ dto.testIds, ∃ t ∈ db.tests, t.id = i ∧
      t.deletedAt = none := by
    intro i hi
    obtain ⟨t, ht, h1, h2, _⟩ := hres i hi
    exact ⟨t, ht, h1, h2⟩
  have hlen : (findByIds db.tests dto.testIds).length = dto.testIds.length :=
    findByIds_length_eq db.tests dto.testIds hwf hnd hres'
  have hav : ∀ t ∈ findByIds db.tests dto.testIds, t.isAvailable = true :=
    findByIds_available db.tests dto.testIds hwf hres
  have htc : calculateTotalCost db.tests dto.testIds =
      .ok ((findByIds db.tests dto.testIds).map (fun t => t.price)).sum :=
    calculateTotalCost_ok db.tests dto.testIds hne hlen hav
  rcases Option.isSome_iff_exists.mp hp with ⟨p, hpz⟩
  constructor
  · have hrd : calculateReadyDate db.tests dto.testIds now =
        .ok (now + 86400000 * (maxTurnaround (findByIds db.tests dto.testIds) : Int)) :=
      calculateReadyDate_ok db.tests dto.testIds now hne hlen
    refine ⟨newOrderRow dto newId now
        ((findByIds db.tests dto.testIds).map (fun t => t.price)).sum
        (now + 86400000 * (maxTurnaround (findByIds db.tests dto.testIds) : Int)),
      ?_, rfl, rfl⟩
    simp [createOrder, hpz, htc, hrd]
  · have hrd2 : calculateReadyDate db.tests dto.testIds now2 =
        .ok (now2 + 86400000 * (maxTurnaround (findByIds db.tests dto.testIds) : Int)) :=
      calculateReadyDate_ok db.tests dto.testIds now2 hne hlen
    have hex : orderExists db.orders oid = true := by
      simp [orderExists, horder]
    have hrid := List.find?_some horder
    have hmain :
        updateOrder db oid ⟨none, some dto.testIds, sts⟩ now2 =
          ({ db with
               orders := db.orders.map (fun s =>
                 if s.id == oid then
                   applyOrderUpdate ⟨none, some dto.testIds, sts⟩
                     (some (((findByIds db.tests dto.testIds).map (fun t => t.price)).sum))
                     (some (now2 + 86400000 * (maxTurnaround (findByIds db.tests dto.testIds) : Int)))
                     now2 s
                 else s),
               orderTests := (db.orderTests.filter (fun ot => !(ot.orderId == oid)))
                 ++ dto.testIds.map (fun tid => ⟨oid, tid⟩) },
            .ok (applyOrderUpdate ⟨none, some dto.testIds, sts⟩
              (some (((findByIds db.tests dto.testIds).map (fun t => t.price)).sum))
              (some (now2 + 86400000 * (maxTurnaround (findByIds db.tests dto.testIds) : Int)))
              now2 r)) := by
      simp [updateOrder, hex, updateOrderCalc, htc, hrd2, orderRepoUpdate,
        horder]
    refine ⟨_, _, hmain, rfl, rfl, ?_⟩
    have hin : r ∈ db.orders := List.mem_of_find?_eq_some horder
    refine List.mem_map.mpr ⟨r, hin, ?_⟩
    simp [hrid]

/-- Witness for C4 at the spec's Scenario C: two tests, prices 100 and
200, turnarounds 1 and 2 days. -/
def w4T1 : TestRow where
  id := "t1"
  code := "A1"
  name := "Alpha"
  price := 100
  turnaroundDays := 1

def w4T2 : TestRow where
  id := "t2"
  code := "B2"
  name := "Beta"
  price := 200
  turnaroundDays := 2

def w4Patient : PatientRow where
  id := "pa"
  name := "John Doe"
  dob := 0

def w4Order : OrderRow where
  id := "o0"
  patientId := "pa"
  totalCost := 100
  readyDate := 0

def w4DB : LabDB where
  patients := [w4Patient]
  tests := [w4T1, w4T2]
  orders := [w4Order]
  orderTests := [⟨"o0", "t1"⟩]

theorem C4_witness :
    ∃ o, (createOrder w4DB ⟨"pa", ["t1", "t2"], none⟩ "o1" 0).2 = .ok o ∧
      o.totalCost = 300 ∧ o.readyDate = 172800000 := by
  obtain ⟨o, ho, hc, hr⟩ :=
    (C4_order_aggregation w4DB ⟨"pa", ["t1", "t2"], none⟩ "o1" 0 "o0" none 0
      w4Order (by decide) (by decide) (by decide) (by decide) (by decide)
      (by decide)).1
  refine ⟨o, by rw [ho], by rw [hc]; decide, by rw [hr]; decide⟩

/-- C5: with a live patient and a non-empty id list, `createOrder` fails
with "One or more tests not found" when the fetched live tests do not
match the requested id count, and fails naming the offending tests when
any fetched test is unavailable; in both cases the store is unchanged. -/
theorem C5_createOrder_failures (db : LabDB) (dto : CreateOrderDTO)
    (newId : String) (now : Int)
    (hp : (patientFindUnique db.patients dto.patientId).isSome = true)
    (hne : dto.testIds ≠ []) :
    ((findByIds db.tests dto.testIds).length ≠ dto.testIds.length →
      createOrder db dto newId now = (db, .err "One or more tests not found")) ∧
    ((findByIds db.tests dto.testIds).length = dto.testIds.length →
      (findByIds db.tests dto.testIds).filter (fun t => !t.isAvailable) ≠ [] →
      createOrder db dto newId now =
        (db, .err ("The following tests are not available: "
          ++ String.intercalate ", "
            (((findByIds db.tests dto.testIds).filter
              (fun t => !t.isAvailable)).map (fun t => t.name))))) := by
  rcases Option.isSome_iff_exists.mp hp with ⟨p, hpz⟩
  constructor
  · intro hlen
    have htc := calculateTotalCost_len_err db.tests dto.testIds hne hlen
    simp [createOrder, hpz, htc]
  · intro hlen hunav
    have htc := calculateTotalCost_unavailable_err db.tests dto.testIds hne
      hlen hunav
    simp [createOrder, hpz, htc]

/-- Witness for C5 (Scenario D flavour): an unavailable test is rejected
and nothing is written. -/
def w5Toff : TestRow where
  id := "t3"
  code := "C3"
  name := "Gamma"
  price := 50
  turnaroundDays := 1
  isAvailable := false

def w5DB : LabDB where
  patients := [w4Patient]
  tests := [w5Toff]
  orders := []
  orderTests := []

theorem C5_witness :
    createOrder w5DB ⟨"pa", ["t3"], none⟩ "o1" 0 =
      (w5DB, .err "The following tests are not available: Gamma") := by
  have h := (C5_createOrder_failures w5DB ⟨"pa", ["t3"], none⟩ "o1" 0
    (by decide) (by decide)).2 (by decide) (by decide)
  rw [h]
  decide

/-- C10: a duplicated test id in the request makes the fetched set
smaller than the requested id count (Prisma returns each matching row
once), so `createOrder` fails with the "tests not found" condition and
writes nothing — even when the duplicated test is live and available. -/
theorem C10_duplicate_testIds_rejected (db : LabDB) (dto : CreateOrderDTO)
    (newId : String) (now : Int)
    (hp : (patientFindUnique db.patients dto.patientId).isSome = true)
    (hwf : (db.tests.map (fun t => t.id)).Nodup)
    (hdup : ¬ dto.testIds.Nodup) :
    createOrder db dto newId now = (db, .err "One or more tests not found") := by
  have hne : dto.testIds ≠ [] := by
    intro h
    exact hdup (h ▸ List.nodup_nil)
  have hlt := findByIds_length_lt db.tests dto.testIds hwf hdup
  have hlen : (findByIds db.tests dto.testIds).length ≠ dto.testIds.length :=
    Nat.ne_of_lt hlt
  rcases Option.isSome_iff_exists.mp hp with ⟨p, hpz⟩
  have htc := calculateTotalCost_len_err db.tests dto.testIds hne hlen
  simp [createOrder, hpz, htc]

/-- Witness for C10: requesting the same live, available test twice. -/
theorem C10_witness :
    createOrder w4DB ⟨"pa", ["t1", "t1"], none⟩ "o1" 0 =
      (w4DB, .err "One or more tests not found") :=
  C10_duplicate_testIds_rejected w4DB ⟨"pa", ["t1", "t1"], none⟩ "o1" 0
    (by decide) (by decide) (by decide)

/-! ## Pagination (`api-handler.ts`, `patients/route.ts`,
`patient.repository.ts#findAll`) -/

/-- Models `extractPaginationParams`: `page = Math.max(1, parseInt(qs.page ||
"1"))`, `limit = Math.min(100, Math.max(1, parseInt(qs.limit || "10")))`;
an absent parameter falls back to the default string.  The claims quantify
over numeric parameter values, modelled as `Option Int`. -/
def extractPaginationParams (pageParam limitParam : Option Int) :
    Int × Int :=
  (max 1 (pageParam.getD 1), min 100 (max 1 (limitParam.getD 10)))

/-- Models `orderBy: { createdAt: "desc" }` of `findAll`. -/
def patientSortDesc (l : List PatientRow) : List PatientRow :=
  l.mergeSort (fun a b => decide (b.createdAt ≤ a.createdAt))

/-- The `(data, total, page, limit)` result of
`PatientRepository.findAll`: `skip = (page - 1) * limit`, `take = limit`,
and `total` from `prisma.patient.count({ where })` — which, `count` not
being intercepted by the extension, counts over the raw table. -/
structure PatientListResult where
  data : List PatientRow
  total : Nat
  page : Int
  limit : Int
deriving Repr, DecidableEq

def patientFindAll (tbl : List PatientRow) (wher : PatientRow → Bool)
    (page limit : Int) : PatientListResult where
  data := ((patientSortDesc (patientFindMany tbl wher)).drop
    ((page - 1) * limit).toNat).take limit.toNat
  total := patientCount tbl wher
  page := page
  limit := limit

/-- The response envelope of `GET /api/patients`:
`totalPages = Math.ceil(total / limit)`, written for the positive `limit`
the handler guarantees as the rounded-up natural division. -/
structure ListEnvelope where
  data : List PatientRow
  total : Nat
  page : Int
  limit : Int
  totalPages : Nat
deriving Repr, DecidableEq

def listPatientsGET (tbl : List PatientRow) (wher : PatientRow → Bool)
    (pageParam limitParam : Option Int) : ListEnvelope :=
  let pl := extractPaginationParams pageParam limitParam
  let result := patientFindAll tbl wher pl.1 pl.2
  { data := result.data, total := result.total, page := result.page,
    limit := result.limit,
    totalPages := (result.total + result.limit.toNat - 1) / result.limit.toNat }

/-- Rounded-up natural division is the rational ceiling. -/
theorem ceil_nat_div (t l : ℕ) (h : 0 < l) :
    ⌈(t : ℚ) / (l : ℚ)⌉₊ = (t + l - 1) / l := by
  rcases Nat.eq_zero_or_pos t with ht | ht
  · subst ht
    simp [Nat.div_eq_of_lt (by omega : l - 1 < l)]
  · have hl : (0 : ℚ) < (l : ℚ) := by exact_mod_cast h
    set n := (t + l - 1) / l with hn
    have hub : t + l - 1 < (n + 1) * l := by
      have := (Nat.div_lt_iff_lt_mul h).mp (Nat.lt_succ_self n)
      simpa [hn] using this
    have hlb : n * l ≤ t + l - 1 := Nat.div_mul_le_self (t + l - 1) l
    have hexp : (n + 1) * l = n * l + l := by ring
    have hA : t ≤ n * l := by omega
    have hn1 : 1 ≤ n := by
      have := (Nat.le_div_iff_mul_le h).mpr (by omega : 1 * l ≤ t + l - 1)
      omega
    have hexp2 : (n - 1) * l = n * l - l := by
      cases n with
      | zero => omega
      | succ m => simp [Nat.succ_sub_one, Nat.succ_mul]
    have hB : (n - 1) * l < t := by omega
    rw [Nat.ceil_eq_iff (by omega : n ≠ 0)]
    constructor
    · rw [lt_div_iff₀ hl]
      exact_mod_cast hB
    · rw [div_le_iff₀ hl]
      exact_mod_cast hA

/-- C6: effective pagination — `page` defaults to 1 and non-positive
requests clamp to 1; `limit` defaults to 10 and requests clamp into
[1, 100]; the query drops `(page-1)*limit` rows of the sorted filtered
list and takes `limit`; the envelope carries `total`, `page`, `limit`
and `totalPages = ceil(total / limit)`. -/
theorem C6_pagination_correct (tbl : List PatientRow)
    (wher : PatientRow → Bool) (pageParam limitParam : Option Int) :
    (pageParam = none → (listPatientsGET tbl wher pageParam limitParam).page = 1) ∧
    (∀ p, pageParam = some p →
      (p ≤ 0 → (listPatientsGET tbl wher pageParam limitParam).page = 1) ∧
      (1 ≤ p → (listPatientsGET tbl wher pageParam limitParam).page = p)) ∧
    (limitParam = none → (listPatientsGET tbl wher pageParam limitParam).limit = 10) ∧
    (∀ v, limitParam = some v →
      (v ≤ 0 → (listPatientsGET tbl wher pageParam limitParam).limit = 1) ∧
      (1 ≤ v → v ≤ 100 → (listPatientsGET tbl wher pageParam limitParam).limit = v) ∧
      (100 < v → (listPatientsGET tbl wher pageParam limitParam).limit = 100)) ∧
    ((listPatientsGET tbl wher pageParam limitParam).data =
      ((patientSortDesc (patientFindMany tbl wher)).drop
        (((listPatientsGET tbl wher pageParam limitParam).page - 1)
          * (listPatientsGET tbl wher pageParam limitParam).limit).toNat).take
        (listPatientsGET tbl wher pageParam limitParam).limit.toNat) ∧
    ((listPatientsGET tbl wher pageParam limitParam).total =
      patientCount tbl wher) ∧
    ((listPatientsGET tbl wher pageParam limitParam).totalPages =
      ⌈((listPatientsGET tbl wher pageParam limitParam).total : ℚ)
        / ((listPatientsGET tbl wher pageParam limitParam).limit : ℚ)⌉₊) := by
  refine ⟨?_, ?_, ?_, ?_, rfl, rfl, ?_⟩
  · rintro rfl
    simp [listPatientsGET, extractPaginationParams, patientFindAll]
  · rintro p rfl
    constructor <;> intro hp <;>
      simp [listPatientsGET, extractPaginationParams, patientFindAll] <;>
      omega
  · rintro rfl
    simp [listPatientsGET, extractPaginationParams, patientFindAll]
  · rintro v rfl
    refine ⟨?_, ?_, ?_⟩ <;> intro hv <;>
      [skip; intro hv2; skip] <;>
      simp [listPatientsGET, extractPaginationParams, patientFindAll] <;>
      omega
  · have hlim : (1 : Int) ≤ (listPatientsGET tbl wher pageParam limitParam).limit := by
      simp only [listPatientsGET, extractPaginationParams, patientFindAll]
      omega
    have hpos : 0 < (listPatientsGET tbl wher pageParam limitParam).limit.toNat := by
      omega
    have h1 : (((listPatientsGET tbl wher pageParam limitParam).limit.toNat : ℤ) : ℚ)
        = ((listPatientsGET tbl wher pageParam limitParam).limit : ℚ) :=
      congrArg _ (Int.toNat_of_nonneg (by omega))
    push_cast at h1
    rw [← h1, ceil_nat_div _ _ hpos]
    rfl

/-- Witness for C6: requested page 0 clamps to 1 and requested limit 500
clamps to 100. -/
theorem C6_witness :
    (listPatientsGET [] (fun _ => true) (some 0) (some 500)).page = 1 ∧
    (listPatientsGET [] (fun _ => true) (some 0) (some 500)).limit = 100 := by
  have h := C6_pagination_correct [] (fun _ => true) (some 0) (some 500)
  exact ⟨(h.2.1 0 rfl).1 (by decide),
    (h.2.2.2.1 500 rfl).2.2 (by decide)⟩

/-! ## C7: soft delete across the default read paths -/

def c7Patient : PatientRow where
  id := "pa"
  name := "A"
  dob := 0

def c7Test : TestRow where
  id := "te"
  code := "T1"
  name := "CBC"
  price := 10
  turnaroundDays := 1

def c7Order : OrderRow where
  id := "or"
  patientId := "pa"
  totalCost := 10
  readyDate := 0

/-- C7 demonstration, for each of the three entity kinds: after
`delete(id)` on a live row, the extension's `findMany` and `findUnique`
no longer see it and the raw bypass still returns it with its marker set —
but `count`, which the extension does not intercept and whose repository
callers add no `deletedAt` clause, still counts the soft-deleted row
(1 instead of the 0 the claim requires). -/
theorem C7_softdelete_read_paths :
    (patientFindMany (patientDelete [c7Patient] "pa" 111).1 (fun _ => true) = [] ∧
      patientFindUnique (patientDelete [c7Patient] "pa" 111).1 "pa" = none ∧
      patientCount (patientDelete [c7Patient] "pa" 111).1 (fun _ => true) = 1 ∧
      (∃ r, patientFindUniqueRaw (patientDelete [c7Patient] "pa" 111).1 "pa" = some r ∧
        r.deletedAt = some 111)) ∧
    (testFindMany (testDelete [c7Test] "te" 222).1 (fun _ => true) = [] ∧
      testFindUnique (testDelete [c7Test] "te" 222).1 "te" = none ∧
      testCount (testDelete [c7Test] "te" 222).1 (fun _ => true) = 1 ∧
      (∃ r, testFindUniqueRaw (testDelete [c7Test] "te" 222).1 "te" = some r ∧
        r.deletedAt = some 222)) ∧
    (orderFindMany (orderDelete [c7Order] "or" 333).1 (fun _ => true) = [] ∧
      orderFindUnique (orderDelete [c7Order] "or" 333).1 "or" = none ∧
      orderCount (orderDelete [c7Order] "or" 333).1 (fun _ => true) = 1 ∧
      (∃ r, orderFindUniqueRaw (orderDelete [c7Order] "or" 333).1 "or" = some r ∧
        r.deletedAt = some 333)) := by
  decide

/-! ## C8: what delete changes and what it returns -/

def c8Patient : PatientRow where
  id := "p1"
  name := "B"
  dob := 0

/-- C8 counterexample: the row returned by `delete` carries the deletion
marker already set (Prisma's `update` returns the row after the update),
refuting "the returned value has its deletion marker still unset". -/
theorem C8_counterexample :
    ∃ ret, (patientDelete [c8Patient] "p1" 999).2 = some ret ∧
      ret.deletedAt ≠ none := by
  decide

/-- C8 (amended): `delete(id)` on a present patient row sets only the
deletion marker and the `updatedAt` timestamp, leaves every other field
unchanged and the row physically present, leaves unrelated rows
untouched — and returns the row as it stands after marking, i.e. with
`deletedAt` set to the deletion instant. -/
theorem C8_patientDelete_frame (tbl : List PatientRow) (id : String)
    (now : Int) (r : PatientRow)
    (hfind : tbl.find? (fun s => s.id == id) = some r) :
    ∃ ret, (patientDelete tbl id now).2 = some ret ∧
      ret.id = r.id ∧ ret.name = r.name ∧ ret.dob = r.dob ∧
      ret.phone = r.phone ∧ ret.gender = r.gender ∧
      ret.address = r.address ∧ ret.createdAt = r.createdAt ∧
      ret.deletedAt = some now ∧ ret.updatedAt = now ∧
      (patientDelete tbl id now).1.length = tbl.length ∧
      ret ∈ (patientDelete tbl id now).1 ∧
      (∀ s ∈ tbl, s.id ≠ id → s ∈ (patientDelete tbl id now).1) := by
  have hrid := List.find?_some hfind
  have hin : r ∈ tbl := List.mem_of_find?_eq_some hfind
  refine ⟨{ r with deletedAt := some now, updatedAt := now },
    by simp [patientDelete, hfind], rfl, rfl, rfl, rfl, rfl, rfl, rfl,
    rfl, rfl, by simp [patientDelete, hfind], ?_, ?_⟩
  · simp only [patientDelete, hfind]
    refine List.mem_map.mpr ⟨r, hin, ?_⟩
    simp [hrid]
  · intro s hs hne
    simp only [patientDelete, hfind]
    refine List.mem_map.mpr ⟨s, hs, ?_⟩
    have : (s.id == id) = false := by
      simpa using hne
    simp [this]

/-- Witness for C8's amended theorem at a concrete row. -/
theorem C8_witness :
    ∃ ret, (patientDelete [c8Patient] "p1" 999).2 = some ret ∧
      ret.name = c8Patient.name ∧ ret.deletedAt = some 999 := by
  obtain ⟨ret, h1, _, hname, _, _, _, _, _, hdel, _⟩ :=
    C8_patientDelete_frame [c8Patient] "p1" 999 c8Patient (by decide)
  exact ⟨ret, h1, hname, hdel⟩

/-! ## C9: filter composition in `TestRepository.findAll` -/

/-- The validated filter bag of a Test list query. -/
structure TestFilters where
  name : Option String := none
  isAvailable : Option Bool := none
  minPrice : Option Int := none
  maxPrice : Option Int := none
  search : Option String := none
deriving Repr

/-- The `where` object `TestRepository.findAll` (and `count`) builds: one
Prisma condition per key. -/
structure TestWhere where
  nameContains : Option String := none
  isAvailable : Option Bool := none
  priceGte : Option Int := none
  priceLte : Option Int := none
deriving Repr

/-- The assignment sequence of `TestRepository.findAll`: `name`,
`isAvailable`, `minPrice`/`maxPrice`, then `search` — the `search` branch
assigns `where.name` again (`where.name = { contains: filters.search,
mode: "insensitive" }`), overwriting a `name` filter set earlier. -/
def buildTestWhere (f : TestFilters) : TestWhere :=
  let w : TestWhere := {}
  let w := match f.name with
    | some n => { w with nameContains := some n }
    | none => w
  let w := match f.isAvailable with
    | some b => { w with isAvailable := some b }
    | none => w
  let w := match f.minPrice with
    | some v => { w with priceGte := some v }
    | none => w
  let w := match f.maxPrice with
    | some v => { w with priceLte := some v }
    | none => w
  match f.search with
  | some s => { w with nameContains := some s }
  | none => w

/-- Prisma's semantics for the built `where`: sibling keys conjoin. -/
def evalTestWhere (w : TestWhere) (t : TestRow) : Bool :=
  (match w.nameContains with
    | some s => strContainsCI t.name s
    | none => true) &&
  (match w.isAvailable with
    | some b => t.isAvailable == b
    | none => true) &&
  (match w.priceGte with
    | some v => decide (v ≤ t.price)
    | none => true) &&
  (match w.priceLte with
    | some v => decide (t.price ≤ v)
    | none => true)

/-- The failing input for C9: a test whose name contains the search term
but not the name filter. -/
def c9Test : TestRow where
  id := "t9"
  code := "Z9"
  name := "beta panel"
  price := 10
  turnaroundDays := 1

/-- C9 counterexample: with `name := "alpha"` and `search := "beta"`, the
predicate accepts a test whose name does not contain "alpha" — the search
condition alone decides, refuting "never the search condition alone". -/
theorem C9_counterexample :
    evalTestWhere
      (buildTestWhere { name := some "alpha", search := some "beta" })
      c9Test = true ∧
    strContainsCI c9Test.name "alpha" = false := by
  decide

/-- C9 (amended): the named filters `isAvailable`/`minPrice`/`maxPrice`
are combined with logical AND; the effective name condition is the search
term when one is present — it overwrites the `name` filter — and the
`name` filter only when there is no search term. -/
theorem C9_testWhere_composition (f : TestFilters) (t : TestRow) :
    evalTestWhere (buildTestWhere f) t = true ↔
      ((match f.search with
        | some s => strContainsCI t.name s = true
        | none =>
          match f.name with
          | some n => strContainsCI t.name n = true
          | none => True) ∧
       (match f.isAvailable with
        | some b => t.isAvailable = b
        | none => True) ∧
       (match f.minPrice with
        | some v => v ≤ t.price
        | none => True) ∧
       (match f.maxPrice with
        | some v => t.price ≤ v
        | none => True)) := by
  obtain ⟨n, a, mi, ma, s⟩ := f
  cases n <;> cases a <;> cases mi <;> cases ma <;> cases s <;>
    simp [buildTestWhere, evalTestWhere, and_assoc]

end LabOrders
